import Mathlib

/-!
Verification development for the wiki packet-table miner.

The program reconstructs a 2D grid of spanning cells from wikitable
markup, offers cropped views over that grid, and infers a nested
field tree from two parallel grid columns (field names and field
types).  Strings of the source program are modelled as `List Char`,
Python integers as `Int`, and raised exceptions as `Except Err`.
-/

/-- Error kinds corresponding to the exceptions the program can raise. -/
inductive Err where
  | symmetry
  | valueError
  | assertionError
  | indexError
  | attributeError
  | keyError
  | exception
  | recursionLimit
deriving DecidableEq

/-- Python str.lstrip with default whitespace. -/
def pyLstrip (s : List Char) : List Char := s.dropWhile (·.isWhitespace)

/-- Python str.rstrip with default whitespace. -/
def pyRstrip (s : List Char) : List Char :=
  (s.reverse.dropWhile (·.isWhitespace)).reverse

/-- Python str.strip with default whitespace. -/
def pyStrip (s : List Char) : List Char := pyRstrip (pyLstrip s)

/-- Python list indexing with negative-index wraparound; `none` models IndexError. -/
def pyGet (l : List α) (i : Int) : Option α :=
  if 0 ≤ i then l.get? i.toNat
  else if 0 ≤ i + l.length then l.get? (i + l.length).toNat
  else none

/-- Model of `s[s.find(c) + 1:]`: drop through the first occurrence of `c`;
the whole string when `c` is absent (find returns -1, so the slice is `s[0:]`). -/
def pyFindDrop (s : List Char) (c : Char) : List Char :=
  match s.findIdx? (· = c) with
  | none => s
  | some i => s.drop (i + 1)

/-- Index of the first occurrence of the pattern `pat` inside a string. -/
def findSub? (pat : List Char) : List Char → Option Nat
  | [] => if pat.isPrefixOf ([] : List Char) then some 0 else none
  | a :: rest =>
    if pat.isPrefixOf (a :: rest) then some 0
    else (findSub? pat rest).map (· + 1)

/-- Model of Python `int(s)`: optional surrounding whitespace and sign, digits. -/
def pyInt? (s : List Char) : Option Int :=
  let t := pyStrip s
  let sd : Int × List Char :=
    match t with
    | '-' :: rest => (-1, rest)
    | '+' :: rest => (1, rest)
    | _ => (1, t)
  if sd.2 = [] ∨ ¬ sd.2.all (·.isDigit) then none
  else some (sd.1 * (sd.2.foldl (fun a c => a * 10 + ((c.toNat - 48 : Nat) : Int)) 0))

/-- `consume_line` of the source: split off the first line (right-stripped),
returning the rest of the text, or `none` at end of string. -/
def consume_line (x : List Char) : List Char × Option (List Char) :=
  match x.findIdx? (· = '\n') with
  | none => (x, none)
  | some i => (pyRstrip (x.take i), some (x.drop (i + 1)))

/-- `WikitableCell` of the source: one spanning cell of a reconstructed grid. -/
structure WikitableCell where
  content : List Char
  isHeader : Bool
  x : Int
  y : Int
  rowspan : Int
  colspan : Int
deriving DecidableEq

/-- `WikiTable` of the source: rows of cells plus recorded width and height. -/
structure WikiTable where
  rows : List (List WikitableCell)
  width : Int
  height : Int
deriving DecidableEq

/-- The retention test of `WikiTable.subtable`: the origin of the cell lies in
the crop window. -/
def keepCell (x y width height : Int) (c : WikitableCell) : Bool :=
  c.x ≥ x && c.y ≥ y && c.x < x + width && c.y < y + height

/-- The coordinate rebasing of `WikiTable.subtable`. -/
def moveCell (x y : Int) (c : WikitableCell) : WikitableCell :=
  { c with x := c.x - x, y := c.y - y }

/-- `WikiTable.subtable`: crop to cells whose origin lies in the window,
rebase their coordinates, recompute the width from the retained cells, and
keep one (possibly empty) output row per input row. -/
def WikiTable.subtable (t : WikiTable) (x y width height : Int) : WikiTable :=
  let width := if width ≠ -1 then width else t.width + 1
  let height := if height ≠ -1 then height else t.height + 1
  let rows := t.rows.map
    (fun row => (row.filter (keepCell x y width height)).map (moveCell x y))
  let real_width := rows.foldl
    (fun acc row => row.foldl (fun a c => max a (c.x + c.colspan)) acc) 0
  ⟨rows, real_width, (rows.length : Int)⟩

/-- `WikiTable.get`: the first cell of row `y` whose origin column is `x`. -/
def WikiTable.get (t : WikiTable) (x y : Int) : Except Err (Option WikitableCell) :=
  match pyGet t.rows y with
  | none => .error .indexError
  | some row => .ok ((row.filter (fun c => c.x == x)).head?)

/-- `WikiTable.search_headers`: header cells of row 0 passing the predicate. -/
def WikiTable.search_headers (t : WikiTable) (p : List Char → Bool) :
    Except Err (List WikitableCell) :=
  match pyGet t.rows 0 with
  | none => .error .indexError
  | some row0 => .ok (row0.filter (fun c => c.isHeader && p c.content))

/-- `ProtocolNode` of the source, as a closed variant: plain string types,
descriptor-content pairs, and field lists. -/
inductive ProtocolNode where
  | strType (txt : List Char)
  | binary (descriptor content : ProtocolNode)
  | plist (fields : List (List Char × ProtocolNode))

/-- `TypeGenCtx.parse_type_content`: type resolution is currently the identity
into a plain string type. -/
def parse_type_content (type_content : List Char) : ProtocolNode :=
  .strType type_content

/-- The sanctioned no-fields sentinel marker of the inference engine. -/
def noFieldsSentinel : List Char := "\x27\x27no fields\x27\x27".data

/-- The row loop of `TypeGenCtx.parse_subtable`, walking the zipped rows of the
name and type views.  `recur` is the recursive entry for composite groups; the
fuel bounds the loop and is always supplied larger than the list. -/
def parseRowsAux (recur : WikiTable → WikiTable → Except Err ProtocolNode) :
    Nat → WikiTable → WikiTable →
    List (List WikitableCell × List WikitableCell) →
    Except Err (List (List Char × ProtocolNode))
  | 0, _, _, _ => .error .recursionLimit
  | _ + 1, _, _, [] => .ok []
  | m + 1, name_col, type_col, (name_row, type_row) :: rest =>
    if name_row.length ≠ type_row.length then
      match name_row with
      | n0 :: _ =>
        if pyStrip n0.content = noFieldsSentinel then
          parseRowsAux recur m name_col type_col (rest.drop n0.rowspan.toNat)
        else .error .symmetry
      | [] => .error .symmetry
    else
      match name_row, type_row with
      | [], _ => parseRowsAux recur m name_col type_col rest
      | [n0], t0 :: _ => do
        let l ← parseRowsAux recur m name_col type_col rest
        pure ((n0.content, parse_type_content t0.content) :: l)
      | n0 :: _ :: _, t0 :: _ =>
        if n0.rowspan ≠ t0.rowspan then .error .symmetry
        else do
          let sub ← recur
            (name_col.subtable n0.colspan n0.y (-1) n0.rowspan)
            (type_col.subtable n0.colspan n0.y (-1) n0.rowspan)
          let l ← parseRowsAux recur m name_col type_col (rest.drop n0.rowspan.toNat)
          pure ((n0.content, .binary (parse_type_content t0.content) sub) :: l)
      | _ :: _, [] => .error .indexError

/-- `TypeGenCtx.parse_subtable`: reject a height mismatch, then walk the two
row lists together.  The outer fuel models the Python recursion limit and is
consumed only by composite recursion. -/
def parse_subtable : Nat → WikiTable → WikiTable → Except Err ProtocolNode
  | 0, _, _ => .error .recursionLimit
  | n + 1, name_col, type_col =>
    if name_col.height ≠ type_col.height then .error .symmetry
    else
      (parseRowsAux (fun a b => parse_subtable n a b)
        ((name_col.rows.zip type_col.rows).length + 1) name_col type_col
        (name_col.rows.zip type_col.rows)).map .plist

/-- A step of the span-skipping loop of `WikiTable.From_txt`: advance the
column cursor past the first active span overlapping the cursor, repeatedly.
Fuel is supplied as one more than the number of active spans, which bounds the
number of iterations since a skipped span can never overlap the cursor again. -/
def cellOverlaps (cell : WikitableCell) (x y : Int) : Bool :=
  cell.x ≤ x && cell.y ≤ y && cell.x + cell.colspan > x && cell.y + cell.rowspan > y

/-- The span-skipping loop of `WikiTable.From_txt`. -/
def skipSpans : Nat → List WikitableCell → Int → Int → Int
  | 0, _, x, _ => x
  | fuel + 1, spans, x, y =>
    match spans.find? (fun c => cellOverlaps c x y) with
    | none => x
    | some c => skipSpans fuel spans (x + c.colspan) y

/-- Model of Python `line.split(0x22 quote)[1]`: the text between the first
quote and the second quote (or the end); `none` models the IndexError raised
when the line holds no quote at all. -/
def pySplitQuoteSecond (s : List Char) : Option (List Char) :=
  match s.dropWhile (· ≠ '"') with
  | [] => none
  | _ :: after => some (after.takeWhile (· ≠ '"'))

/-- The attribute loop of `WikiTable.From_txt`: strip leading
colspan="N" / rowspan="N" pairs in any order, returning the rest of the line
with the parsed spans.  Each successful round removes at least nine
characters, so fuel one more than the line length is never exhausted. -/
def parseAttrs : Nat → List Char → Int → Int → Except Err (List Char × Int × Int)
  | 0, _, _, _ => .error .recursionLimit
  | fuel + 1, line, cellColspan, cellRowspan =>
    if ("colspan=".data).isPrefixOf line then
      match pySplitQuoteSecond line with
      | none => .error .indexError
      | some part =>
        match pyInt? part with
        | none => .error .valueError
        | some v =>
          let line1 := pyFindDrop line '"'
          let line2 := pyLstrip (pyFindDrop line1 '"')
          parseAttrs fuel line2 v cellRowspan
    else if ("rowspan=".data).isPrefixOf line then
      match pySplitQuoteSecond line with
      | none => .error .indexError
      | some part =>
        match pyInt? part with
        | none => .error .valueError
        | some v =>
          let line1 := pyFindDrop line '"'
          let line2 := pyLstrip (pyFindDrop line1 '"')
          parseAttrs fuel line2 cellColspan v
    else .ok (line, cellColspan, cellRowspan)

/-- The multi-line continuation rule of `WikiTable.From_txt`: append the line,
preceded by a newline, to the content of the last cell of the pending row. -/
def updateLastContent : List WikitableCell → List Char → List WikitableCell
  | [], _ => []
  | [c], line => [{ c with content := c.content ++ '\n' :: line }]
  | c :: d :: rest, line => c :: updateLastContent (d :: rest) line

/-- The line loop of `WikiTable.From_txt`.  One iteration consumes at least
one character of the remaining text, so fuel two more than the text length is
never exhausted.  Returns the flushed rows, the tracked width, and the
unconsumed text after the table (none at end of string). -/
def fromTxtLoop : Nat → List Char → List (List WikitableCell) →
    List WikitableCell → List WikitableCell → Int → Int → Int →
    Except Err (List (List WikitableCell) × Int × Option (List Char))
  | 0, _, _, _, _, _, _, _ => .error .recursionLimit
  | fuel + 1, head, rows, curRow, rowspans, x, y, width =>
    let cl := consume_line head
    let line := pyLstrip cl.1
    match cl.2 with
    | none => .ok (rows ++ [curRow], width, none)
    | some head' =>
      if ("|\x7d".data).isPrefixOf line then .ok (rows ++ [curRow], width, some head')
      else if line = [] then fromTxtLoop fuel head' rows curRow rowspans x y width
      else if line.head? ≠ some '!' ∧ line.head? ≠ some '|' then
        match curRow with
        | [] => .error .valueError
        | _ :: _ =>
          fromTxtLoop fuel head' rows (updateLastContent curRow line) rowspans x y width
      else
        let isHeader := line.head? = some '!'
        let line := pyLstrip (line.drop 1)
        if line.head? = some '-' then
          if y = 0 ∧ curRow = [] then fromTxtLoop fuel head' rows curRow rowspans x y width
          else
            let width := max width (x - 1)
            if isHeader then .error .assertionError
            else
              let y := y + 1
              let rowspans := rowspans.filter (fun c => c.y + c.rowspan > y)
              fromTxtLoop fuel head' (rows ++ [curRow]) [] rowspans 0 y width
        else
          let x := skipSpans (rowspans.length + 1) rowspans x y
          match parseAttrs (line.length + 1) line 1 1 with
          | .error e => .error e
          | .ok (line, cellColspan, cellRowspan) =>
            let line := if line.head? = some '|' then pyLstrip (line.drop 1) else line
            let cell : WikitableCell := ⟨pyRstrip line, isHeader, x, y, cellRowspan, cellColspan⟩
            let rowspans := if cellRowspan ≠ 1 then rowspans ++ [cell] else rowspans
            fromTxtLoop fuel head' rows (curRow ++ [cell]) rowspans (x + cellColspan) y width

/-- `WikiTable.From_txt`: parse a wikitable positioned at the table-open
token, returning the table and the unconsumed trailing text. -/
def WikiTable.From_txt (txt : List Char) :
    Except Err (WikiTable × Option (List Char)) :=
  let txt := pyLstrip txt
  let cl := consume_line txt
  if ¬ ("\x7b|".data).isPrefixOf (pyStrip cl.1) then .error .assertionError
  else
    match cl.2 with
    | none => .error .assertionError
    | some head =>
      match fromTxtLoop (head.length + 2) head [] [] [] 0 0 (-1) with
      | .error e => .error e
      | .ok (rows, width, rest) => .ok (⟨rows, width, (rows.length : Int)⟩, rest)

/-- `Wiki` of the source: a named section holding raw text pieces and
subsections. -/
inductive Wiki where
  | mk (name : List Char) (components : List (Wiki ⊕ List Char))

/-- The name of a wiki section. -/
def Wiki.name : Wiki → List Char
  | .mk n _ => n

/-- The components of a wiki section. -/
def Wiki.components : Wiki → List (Wiki ⊕ List Char)
  | .mk _ c => c

/-- `Packet` of the source: one parsed packet record. -/
structure Packet where
  preamble : List Char
  packetId : List Char
  resourceId : Option (List Char)
  typeDefinition : ProtocolNode

/-- Python dict assignment on an association list: replace in place or append. -/
def pyDictSet (k v : List Char) : List (List Char × List Char) → List (List Char × List Char)
  | [] => [(k, v)]
  | (k', v') :: rest => if k' = k then (k, v) :: rest else (k', v') :: pyDictSet k v rest

/-- Python dict lookup on an association list. -/
def pyDictGet? (d : List (List Char × List Char)) (k : List Char) : Option (List Char) :=
  (d.find? (fun p => p.1 == k)).map (·.2)

/-- The line-break skipping loop of `parse_modern_packet_id`; `none` when the
fuel runs out, which models the loop never finding a closing angle bracket. -/
def brLoop : Nat → List Char → Option (List Char)
  | 0, _ => none
  | fuel + 1, txt =>
    if txt ≠ [] ∧ ("<br".data).isPrefixOf txt then brLoop fuel (pyFindDrop txt '>')
    else some txt

/-- The group loop of `parse_modern_packet_id`: repeatedly strip a delimited
key, a delimited value, and trailing line-break markers. -/
def pidLoop : Nat → List Char → List (List Char × List Char) →
    Except Err (List (List Char × List Char))
  | 0, _, _ => .error .recursionLimit
  | fuel + 1, txt, ret =>
    if txt = [] then .ok ret
    else if ¬ ("\x27\x27".data).isPrefixOf txt then .error .assertionError
    else
      let txt := txt.drop 2
      match findSub? (":\x27\x27".data) txt with
      | none => .error .assertionError
      | some nameEnd =>
        let name := txt.take nameEnd
        let txt := pyFindDrop txt '>'
        if ¬ ("<code>".data).isPrefixOf txt then .error .assertionError
        else
          let txt := txt.drop 6
          let value :=
            match txt.findIdx? (· = '<') with
            | some i => txt.take i
            | none => txt.take (txt.length - 1)
          let txt := pyFindDrop txt '>'
          match brLoop (txt.length + 1) txt with
          | none => .error .recursionLimit
          | some txt => pidLoop fuel txt (pyDictSet name value ret)

/-- `parse_modern_packet_id`: decode the identifier cell, either the legacy
bare hex form or a sequence of key/code-value groups. -/
def parse_modern_packet_id (id_col : List Char) :
    Except Err (List (List Char × List Char)) :=
  if ("0x".data).isPrefixOf id_col then .ok [("protocol".data, id_col)]
  else pidLoop (id_col.length + 1) id_col []

/-- The preamble loop of `modern_packet_parse`: accumulate leading lines until
one starts with the table-open token. -/
def preambleLoop : Nat → Option (List Char) → List Char → List Char × Option (List Char)
  | 0, txt, pre => (pre, txt)
  | _ + 1, none, pre => (pre, none)
  | fuel + 1, some txt, pre =>
    if txt = [] then (pre, some txt)
    else
      let cl := consume_line txt
      if ("\x7b|".data).isPrefixOf cl.1 then (pre, some txt)
      else preambleLoop fuel cl.2 (pre ++ cl.1 ++ ['\n'])

/-- The steps of `modern_packet_parse` before the inference call: find the
table, parse it, validate the header layout, decode the packet identifier, and
build the name and type column views. -/
def packet_pre (w : Wiki) :
    Except Err (List Char × List (List Char × List Char) × WikiTable × WikiTable) :=
  match w.components.head? with
  | none => .error .assertionError
  | some (Sum.inl _) => .error .assertionError
  | some (Sum.inr txt0) =>
    let pl := preambleLoop (txt0.length + 2) (some txt0) []
    match pl.2 with
    | none => .error .exception
    | some txt =>
      if txt = [] then .error .exception
      else
        match WikiTable.From_txt txt with
        | .error e => .error e
        | .ok (packetTable, _) =>
          match packetTable.get 0 0 with
          | .error e => .error e
          | .ok none => .error .attributeError
          | .ok (some c00) =>
            if pyStrip c00.content ≠ ("Packet ID".data) then .error .exception
            else
              match packetTable.get 0 1 with
              | .error e => .error e
              | .ok none => .error .attributeError
              | .ok (some c01) =>
                match parse_modern_packet_id c01.content with
                | .error e => .error e
                | .ok packetId =>
                  if (pyDictGet? packetId ("protocol".data)).isNone then
                    .error .assertionError
                  else
                    match packetTable.search_headers
                        (fun c => pyStrip c == ("Field Name".data)) with
                    | .error e => .error e
                    | .ok nameHeader =>
                      match packetTable.search_headers
                          (fun c => pyStrip c == ("Field Type".data)) with
                      | .error e => .error e
                      | .ok typeHeader =>
                        match nameHeader, typeHeader with
                        | [nh], [th] =>
                          .ok (pl.1, packetId,
                            packetTable.subtable nh.x 1 nh.colspan (-1),
                            packetTable.subtable th.x 1 th.colspan (-1))
                        | _, _ => .error .assertionError

/-- The log line printed when the inference engine raises a symmetry error. -/
def symmetryMsg (name : List Char) : List Char :=
  ("Symmetry error in packet ".data) ++ name ++ (". Intervention required!".data)

/-- `modern_packet_parse`: run the pre-inference steps, invoke the inference
engine, catch only the symmetry error (logging the packet name and yielding no
packet), re-raise anything else, and otherwise assemble the packet record.
The result pairs the printed log lines with the returned value. -/
def modern_packet_parse (fuel : Nat) (w : Wiki) :
    Except Err (List (List Char) × Option Packet) :=
  match packet_pre w with
  | .error e => .error e
  | .ok (preamble, packetId, nameCol, typeCol) =>
    match parse_subtable fuel nameCol typeCol with
    | .error .symmetry => .ok ([symmetryMsg w.name], none)
    | .error e => .error e
    | .ok packetType =>
      match pyDictGet? packetId ("protocol".data) with
      | none => .error .keyError
      | some proto =>
        .ok ([], some ⟨preamble, proto, pyDictGet? packetId ("resource".data), packetType⟩)

/-- The rectangle of grid positions a cell occupies. -/
def inRect (c : WikitableCell) (px py : Int) : Prop :=
  c.x ≤ px ∧ px < c.x + c.colspan ∧ c.y ≤ py ∧ py < c.y + c.rowspan

instance (c : WikitableCell) (px py : Int) : Decidable (inRect c px py) := by
  unfold inRect; infer_instance

/-- Two cells occupy disjoint rectangles. -/
def rectDisjoint (c d : WikitableCell) : Prop :=
  c.x + c.colspan ≤ d.x ∨ d.x + d.colspan ≤ c.x ∨
  c.y + c.rowspan ≤ d.y ∨ d.y + d.rowspan ≤ c.y

instance (c d : WikitableCell) : Decidable (rectDisjoint c d) := by
  unfold rectDisjoint; infer_instance

/-- The leaf field built from one single-cell row pair of the two views. -/
def leafOfRow (p : List WikitableCell × List WikitableCell) : List Char × ProtocolNode :=
  match p with
  | (n0 :: _, t0 :: _) => (n0.content, parse_type_content t0.content)
  | _ => ([], .strType [])

/-- Name view of the composite resynchronization example: a two-row group
(first cell rowspan 2) followed by one further ordinary row. -/
def c1_name_col : WikiTable :=
  ⟨[[⟨"Trades".data, false, 0, 0, 2, 1⟩, ⟨"Sub1".data, false, 1, 0, 1, 1⟩],
    [⟨"Sub2".data, false, 1, 1, 1, 1⟩],
    [⟨"After".data, false, 0, 2, 1, 2⟩]], 2, 3⟩

/-- Type view matching `c1_name_col`. -/
def c1_type_col : WikiTable :=
  ⟨[[⟨"Arr".data, false, 0, 0, 2, 1⟩, ⟨"T1".data, false, 1, 0, 1, 1⟩],
    [⟨"T2".data, false, 1, 1, 1, 1⟩],
    [⟨"TAfter".data, false, 0, 2, 1, 2⟩]], 2, 3⟩

/-- A grid holding one cell spanning a 2 by 2 rectangle at the origin. -/
def c3_table : WikiTable := ⟨[[⟨['A'], false, 0, 0, 2, 2⟩], []], 2, 2⟩

/-- A two-row grid with one cell per row. -/
def c4_table : WikiTable :=
  ⟨[[⟨['a'], false, 0, 0, 1, 1⟩], [⟨['b'], false, 0, 1, 1, 1⟩]], 1, 2⟩

/-- A one-row, one-cell name view. -/
def c6_name_col : WikiTable := ⟨[[⟨['N'], false, 0, 0, 1, 1⟩]], 1, 1⟩

/-- A one-row, one-cell type view. -/
def c6_type_col : WikiTable := ⟨[[⟨['T'], false, 0, 0, 1, 1⟩]], 1, 1⟩

/-- Raw section text of a packet whose table has a name column cell with no
cell beside it in the type column, which trips the symmetry check. -/
def c9_section_text : List Char :=
  ("\x7b|\n! Packet ID\n! Field Name\n! Field Type\n|-\n| \x27\x27protocol:\x27\x27<br/><code>0x00</code>\n| colspan=\"2\"| A\n|-\n| x\n| B\n| Int\n|\x7d\n").data

/-- The wiki section wrapping `c9_section_text`. -/
def c9_wiki : Wiki := .mk ("Test Packet".data) [Sum.inr c9_section_text]

/-- C1: evaluation of the inference engine on `c1_name_col` / `c1_type_col`.
The composite group has rowspan 2 and covers the current row plus one
following row, yet after emitting the composite the loop consumes two more
row pairs, so the ordinary row After that follows the group is silently
dropped: the result carries exactly one field instead of the two the
row-cursor rule of the specification (advance by rowspan minus one) yields. -/
theorem c1_composite_skip_drops_next_row :
    parse_subtable 3 c1_name_col c1_type_col =
      .ok (.plist [(("Trades".data),
        .binary (.strType ("Arr".data))
          (.plist [(("Sub1".data), .strType ("T1".data)),
                   (("Sub2".data), .strType ("T2".data))]))]) := rfl

/-- C2: whenever the two views disagree in height, the inference engine
raises the symmetry error immediately, producing no field list at all; the
sentinel-absence hypothesis mirrors the claim and is not even needed. -/
theorem parse_subtable_height_mismatch (n : Nat) (nc tc : WikiTable)
    (hmm : nc.height ≠ tc.height)
    (hsent : ∀ row ∈ nc.rows, ∀ c ∈ row, pyStrip c.content ≠ noFieldsSentinel) :
    parse_subtable (n + 1) nc tc = .error .symmetry := by
  simp [parse_subtable, hmm]

/-- Witness for `parse_subtable_height_mismatch` at two concrete views of
heights 0 and 1. -/
theorem parse_subtable_height_mismatch_witness :
    ((⟨[], 0, 0⟩ : WikiTable).height ≠ (⟨[], 0, 1⟩ : WikiTable).height)
    ∧ parse_subtable 1 ⟨[], 0, 0⟩ ⟨[], 0, 1⟩ = .error .symmetry :=
  ⟨by decide, parse_subtable_height_mismatch 0 _ _ (by decide) (by simp)⟩

/-- C7 counterexample: the grid builder parses a one-row table into a grid of
recorded width -1, while the maximum of x plus colspan over its cells is 1,
so the recorded width is not that maximum (the width tracker only updates at
row separators and subtracts one from the column cursor). -/
theorem c7_counterexample :
    WikiTable.From_txt ("\x7b|\n|a\n|\x7d".data) =
        .ok (⟨[[⟨['a'], false, 0, 0, 1, 1⟩]], -1, 1⟩, none)
    ∧ ([[(⟨['a'], false, 0, 0, 1, 1⟩ : WikitableCell)]].foldl
        (fun acc row => row.foldl (fun a c => max a (c.x + c.colspan)) acc) 0) = 1
    ∧ (-1 : Int) ≠ 1 := ⟨rfl, rfl, by decide⟩

/-- C7 amended: for every grid the builder produces, the recorded height
equals the number of rows; the recorded width, by contrast, is the running
maximum of the pre-separator column cursor minus one over separator-closed
rows and can differ from the maximum of x plus colspan over the cells. -/
theorem From_txt_height_eq_rows (txt : List Char) (tbl : WikiTable)
    (rest : Option (List Char)) (h : WikiTable.From_txt txt = .ok (tbl, rest)) :
    tbl.height = (tbl.rows.length : Int) := by
  simp only [WikiTable.From_txt] at h
  split at h
  · exact Except.noConfusion h
  · split at h
    · exact Except.noConfusion h
    · split at h
      · exact Except.noConfusion h
      · rename_i rows width rest' heq
        injection h with h1
        injection h1 with h2 h3
        subst h2
        rfl

/-- Witness for `From_txt_height_eq_rows` on a concrete parsed table. -/
theorem From_txt_height_eq_rows_witness :
    (⟨[[⟨['a'], false, 0, 0, 1, 1⟩]], -1, 1⟩ : WikiTable).height
      = ((⟨[[⟨['a'], false, 0, 0, 1, 1⟩]], -1, 1⟩ : WikiTable).rows.length : Int) :=
  From_txt_height_eq_rows ("\x7b|\n|a\n|\x7d".data) _ none rfl

/-- C8 counterexample: a stray text line directly after a row separator makes
the builder raise the format error even though a cell (content a) was already
created in the previous row — the same input without the stray line parses
fine and carries that cell — so the error is not raised only when no cell has
been created yet. -/
theorem c8_counterexample :
    WikiTable.From_txt ("\x7b|\n|a\n|-\nxyz\n|\x7d".data) = .error .valueError
    ∧ WikiTable.From_txt ("\x7b|\n|a\n|-\n|\x7d".data) =
        .ok (⟨[[⟨['a'], false, 0, 0, 1, 1⟩], []], 0, 2⟩, none) := ⟨rfl, rfl⟩

/-- C8 amended: a non-blank line that starts with neither a header token, a
cell token, a row separator nor a table close is appended (with a preserved
newline) to the last cell of the current pending row; the format error is
raised exactly when the pending row is empty, even if earlier rows contain
cells. -/
theorem fromTxtLoop_continuation (fuel : Nat) (head : List Char)
    (rows : List (List WikitableCell)) (curRow rowspans : List WikitableCell)
    (x y width : Int) (line0 : List Char) (rest : List Char)
    (hcl : consume_line head = (line0, some rest))
    (hne : pyLstrip line0 ≠ [])
    (hnh : (pyLstrip line0).head? ≠ some '!')
    (hnp : (pyLstrip line0).head? ≠ some '|') :
    (curRow = [] →
      fromTxtLoop (fuel + 1) head rows curRow rowspans x y width = .error .valueError)
    ∧ (curRow ≠ [] →
      fromTxtLoop (fuel + 1) head rows curRow rowspans x y width =
        fromTxtLoop fuel rest rows (updateLastContent curRow (pyLstrip line0))
          rowspans x y width) := by
  have hpre : (("|\x7d".data).isPrefixOf (pyLstrip line0)) = false := by
    cases hL : pyLstrip line0 with
    | nil => exact absurd hL hne
    | cons a t =>
      rw [hL] at hnp
      have ha : ('|' == a) = false := by
        cases hq : ('|' == a) with
        | false => rfl
        | true => exact absurd (by simp [(beq_iff_eq.mp hq).symm]) hnp
      show (List.isPrefixOf ['|', '\x7d'] (a :: t)) = false
      simp [List.isPrefixOf, ha]
  constructor
  · intro hcr
    subst hcr
    simp only [fromTxtLoop, hcl]
    rw [if_neg (by simp [hpre]), if_neg (by simpa using hne), if_pos ⟨hnh, hnp⟩]
  · intro hcr
    obtain ⟨c, cr, hc⟩ : ∃ c cr, curRow = c :: cr := by
      cases curRow with
      | nil => exact absurd rfl hcr
      | cons c cr => exact ⟨c, cr, rfl⟩
    subst hc
    simp only [fromTxtLoop, hcl]
    rw [if_neg (by simp [hpre]), if_neg (by simpa using hne), if_pos ⟨hnh, hnp⟩]

/-- Witness for `fromTxtLoop_continuation`: the stray line z errors on an
empty pending row and extends the last cell of a non-empty pending row. -/
theorem fromTxtLoop_continuation_witness :
    fromTxtLoop 1 ("z\nQ".data) [] [] [] 0 0 (-1) = .error .valueError
    ∧ fromTxtLoop 1 ("z\nQ".data) [] [⟨['a'], false, 0, 0, 1, 1⟩] [] 1 0 (-1) =
        fromTxtLoop 0 ("Q".data) []
          (updateLastContent [⟨['a'], false, 0, 0, 1, 1⟩] (pyLstrip ("z".data)))
          [] 1 0 (-1) :=
  ⟨(fromTxtLoop_continuation 0 _ [] [] [] 0 0 (-1) _ _ rfl (by decide) (by decide)
      (by decide)).1 rfl,
   (fromTxtLoop_continuation 0 _ [] [⟨['a'], false, 0, 0, 1, 1⟩] [] 1 0 (-1) _ _ rfl
      (by decide) (by decide) (by decide)).2 (by simp)⟩

/-- Unfolding of `WikiTable.subtable` when neither extent takes the default. -/
theorem subtable_eq (t : WikiTable) (x y w h : Int) (hw : w ≠ -1) (hh : h ≠ -1) :
    t.subtable x y w h =
      ⟨t.rows.map (fun row => (row.filter (keepCell x y w h)).map (moveCell x y)),
       (t.rows.map (fun row => (row.filter (keepCell x y w h)).map (moveCell x y))).foldl
         (fun acc row => row.foldl (fun a c => max a (c.x + c.colspan)) acc) 0,
       ((t.rows.map (fun row => (row.filter (keepCell x y w h)).map (moveCell x y))).length : Int)⟩ := by
  simp only [WikiTable.subtable]
  rw [if_pos hw, if_pos hh]

/-- The nested width fold of `subtable` equals the fold over the joined cells. -/
theorem fold2_max_eq_join (rows : List (List WikitableCell)) (init : Int) :
    rows.foldl (fun acc row => row.foldl (fun a c => max a (c.x + c.colspan)) acc) init
      = rows.join.foldl (fun a c => max a (c.x + c.colspan)) init := by
  induction rows generalizing init with
  | nil => rfl
  | cons r rs ih => simp [List.foldl_append, ih]

/-- The width fold only grows its accumulator. -/
theorem foldl_cellmax_init_le (l : List WikitableCell) (init : Int) :
    init ≤ l.foldl (fun a c => max a (c.x + c.colspan)) init := by
  induction l generalizing init with
  | nil => simp
  | cons c cs ih =>
    simp only [List.foldl_cons]
    exact le_trans (le_max_left _ _) (ih _)

/-- The width fold bounds every cell extent in the list. -/
theorem foldl_cellmax_le (l : List WikitableCell) (init : Int) :
    ∀ c ∈ l, c.x + c.colspan ≤ l.foldl (fun a c => max a (c.x + c.colspan)) init := by
  induction l generalizing init with
  | nil => simp
  | cons d ds ih =>
    intro c hc
    rcases List.mem_cons.mp hc with hcd | hcm
    · subst hcd
      simp only [List.foldl_cons]
      exact le_trans (le_max_right _ _) (foldl_cellmax_init_le ds _)
    · exact ih _ c hcm

/-- The width fold returns its initial value or the extent of some listed cell. -/
theorem foldl_cellmax_attain (l : List WikitableCell) (init : Int) :
    l.foldl (fun a c => max a (c.x + c.colspan)) init = init
    ∨ ∃ c ∈ l, l.foldl (fun a c => max a (c.x + c.colspan)) init = c.x + c.colspan := by
  induction l generalizing init with
  | nil => exact Or.inl rfl
  | cons d ds ih =>
    simp only [List.foldl_cons]
    rcases ih (max init (d.x + d.colspan)) with he | ⟨c, hc, he⟩
    · rcases max_choice init (d.x + d.colspan) with hm | hm
      · exact Or.inl (he.trans hm)
      · exact Or.inr ⟨d, List.mem_cons_self _ _, he.trans hm⟩
    · exact Or.inr ⟨c, List.mem_cons_of_mem _ hc, he⟩

/-- C4 counterexample: cropping away the only cell of the first row keeps an
empty first row, so the recorded height of the crop is the parent row count 2
and not the number 1 of non-empty result rows. -/
theorem c4_counterexample :
    (c4_table.subtable 0 1 1 1).height = 2
    ∧ ((c4_table.subtable 0 1 1 1).rows.filter (fun r => !r.isEmpty)).length = 1
    ∧ (2 : Int) ≠ 1 := ⟨rfl, rfl, by decide⟩

/-- C4 amended: for in-bounds crop arguments the crop retains, row by row,
exactly the cells whose origin lies in the window, translated by the crop
offsets; its width is the maximum cell extent of the retained cells (0 when
none remain); and its height equals the number of rows of the parent grid,
empty result rows included. -/
theorem subtable_spec (t : WikiTable) (x0 y0 w h : Int)
    (hx : 0 ≤ x0) (hy : 0 ≤ y0) (hw : 0 ≤ w) (hh : 0 ≤ h) :
    (t.subtable x0 y0 w h).height = (t.rows.length : Int)
    ∧ (t.subtable x0 y0 w h).rows.length = t.rows.length
    ∧ (∀ i : Nat, ∀ c : WikitableCell,
        (∃ r, (t.subtable x0 y0 w h).rows.get? i = some r ∧ c ∈ r) ↔
        (∃ r0 c0, t.rows.get? i = some r0 ∧ c0 ∈ r0 ∧ keepCell x0 y0 w h c0 = true
          ∧ c = moveCell x0 y0 c0))
    ∧ (∀ c ∈ (t.subtable x0 y0 w h).rows.join,
        c.x + c.colspan ≤ (t.subtable x0 y0 w h).width)
    ∧ ((t.subtable x0 y0 w h).width = 0
       ∨ ∃ c ∈ (t.subtable x0 y0 w h).rows.join,
          (t.subtable x0 y0 w h).width = c.x + c.colspan) := by
  rw [subtable_eq t x0 y0 w h (by omega) (by omega)]
  refine ⟨by simp, by simp, ?_, ?_, ?_⟩
  · intro i c
    constructor
    · rintro ⟨r, hr, hcr⟩
      rw [List.get?_eq_getElem?, List.getElem?_map] at hr
      rcases Option.map_eq_some'.mp hr with ⟨r0, hr0, rfl⟩
      rcases List.mem_map.mp hcr with ⟨c0, hc0, rfl⟩
      rcases List.mem_filter.mp hc0 with ⟨hc0r, hc0k⟩
      exact ⟨r0, c0, by rw [List.get?_eq_getElem?]; exact hr0, hc0r, hc0k, rfl⟩
    · rintro ⟨r0, c0, hr0, hc0r, hc0k, rfl⟩
      rw [List.get?_eq_getElem?] at hr0
      refine ⟨(r0.filter (keepCell x0 y0 w h)).map (moveCell x0 y0), ?_, ?_⟩
      · rw [List.get?_eq_getElem?, List.getElem?_map, hr0]
        rfl
      · exact List.mem_map.mpr ⟨c0, List.mem_filter.mpr ⟨hc0r, hc0k⟩, rfl⟩
  · intro c hc
    rw [fold2_max_eq_join]
    exact foldl_cellmax_le _ 0 c hc
  · rw [fold2_max_eq_join]
    rcases foldl_cellmax_attain
        ((t.rows.map (fun row => (row.filter (keepCell x0 y0 w h)).map (moveCell x0 y0))).join) 0
      with he | ⟨c, hc, he⟩
    · exact Or.inl he
    · exact Or.inr ⟨c, hc, he⟩

/-- Witness for `subtable_spec` at a concrete crop of `c4_table`. -/
theorem subtable_spec_witness :
    (c4_table.subtable 0 1 1 1).height = (c4_table.rows.length : Int)
    ∧ (c4_table.subtable 0 1 1 1).rows.length = c4_table.rows.length :=
  ⟨(subtable_spec c4_table 0 1 1 1 (by decide) (by decide) (by decide) (by decide)).1,
   (subtable_spec c4_table 0 1 1 1 (by decide) (by decide) (by decide) (by decide)).2.1⟩

/-- Two successive coordinate rebasings collapse into one. -/
theorem moveCell_comp (x0 y0 x1 y1 : Int) (c : WikitableCell) :
    moveCell x1 y1 (moveCell x0 y0 c) = moveCell (x0 + x1) (y0 + y1) c := by
  cases c
  simp [moveCell]
  omega

/-- Retention under two nested crop windows equals retention under the
translated inner window, given the inner window fits inside the outer one. -/
theorem keep_comp (x0 y0 w0 h0 x1 y1 w1 h1 : Int) (hx1 : 0 ≤ x1) (hy1 : 0 ≤ y1)
    (hw : x1 + w1 ≤ w0) (hh : y1 + h1 ≤ h0) (c : WikitableCell) :
    (keepCell x1 y1 w1 h1 (moveCell x0 y0 c) && keepCell x0 y0 w0 h0 c)
      = keepCell (x0 + x1) (y0 + y1) w1 h1 c := by
  cases c
  rw [Bool.eq_iff_iff]
  simp only [keepCell, moveCell, Bool.and_eq_true, decide_eq_true_eq, ge_iff_le]
  omega

/-- C5: crop composes — cropping a crop equals one crop whose offsets are the
sums of the offsets and whose extents are those of the inner (second) window,
for in-bounds arguments (the second window lies inside the extents of the first). -/
theorem subtable_comp (t : WikiTable) (x0 y0 w0 h0 x1 y1 w1 h1 : Int)
    (hx1 : 0 ≤ x1) (hy1 : 0 ≤ y1) (hw1 : 0 ≤ w1) (hh1 : 0 ≤ h1)
    (hw : x1 + w1 ≤ w0) (hh : y1 + h1 ≤ h0) :
    (t.subtable x0 y0 w0 h0).subtable x1 y1 w1 h1
      = t.subtable (x0 + x1) (y0 + y1) w1 h1 := by
  have hw0 : w0 ≠ -1 := by omega
  have hh0 : h0 ≠ -1 := by omega
  have hw1' : w1 ≠ -1 := by omega
  have hh1' : h1 ≠ -1 := by omega
  rw [subtable_eq t x0 y0 w0 h0 hw0 hh0,
      subtable_eq _ x1 y1 w1 h1 hw1' hh1',
      subtable_eq t (x0 + x1) (y0 + y1) w1 h1 hw1' hh1']
  have hrows : ∀ row : List WikitableCell,
      (((row.filter (keepCell x0 y0 w0 h0)).map (moveCell x0 y0)).filter
          (keepCell x1 y1 w1 h1)).map (moveCell x1 y1)
        = (row.filter (keepCell (x0 + x1) (y0 + y1) w1 h1)).map
            (moveCell (x0 + x1) (y0 + y1)) := by
    intro row
    rw [List.filter_map, List.filter_filter, List.map_map]
    have hpred : (fun a => (keepCell x1 y1 w1 h1 ∘ moveCell x0 y0) a
          && keepCell x0 y0 w0 h0 a)
        = keepCell (x0 + x1) (y0 + y1) w1 h1 := by
      funext a
      exact keep_comp x0 y0 w0 h0 x1 y1 w1 h1 hx1 hy1 hw hh a
    have hmv : (moveCell x1 y1 ∘ moveCell x0 y0) = moveCell (x0 + x1) (y0 + y1) := by
      funext a
      exact moveCell_comp x0 y0 x1 y1 a
    rw [hpred, hmv]
  have hrw : (t.rows.map
        (fun row => (row.filter (keepCell x0 y0 w0 h0)).map (moveCell x0 y0))).map
        (fun row => (row.filter (keepCell x1 y1 w1 h1)).map (moveCell x1 y1))
      = t.rows.map (fun row => (row.filter (keepCell (x0 + x1) (y0 + y1) w1 h1)).map
          (moveCell (x0 + x1) (y0 + y1))) := by
    rw [List.map_map]
    have hfun : ((fun row : List WikitableCell =>
          (row.filter (keepCell x1 y1 w1 h1)).map (moveCell x1 y1)) ∘
        (fun row : List WikitableCell =>
          (row.filter (keepCell x0 y0 w0 h0)).map (moveCell x0 y0)))
        = fun row : List WikitableCell =>
          (row.filter (keepCell (x0 + x1) (y0 + y1) w1 h1)).map
            (moveCell (x0 + x1) (y0 + y1)) := funext hrows
    rw [hfun]
  rw [hrw]

/-- Witness for `subtable_comp` at concrete windows over `c4_table`. -/
theorem subtable_comp_witness :
    (c4_table.subtable 0 0 2 2).subtable 0 1 1 1 = c4_table.subtable (0 + 0) (0 + 1) 1 1 :=
  subtable_comp c4_table 0 0 2 2 0 1 1 1 (by decide) (by decide) (by decide) (by decide)
    (by decide) (by decide)

/-- On a row list where every name row and type row holds exactly one cell,
the row walk emits one leaf per row pair, in order. -/
theorem parseRowsAux_flat (recur : WikiTable → WikiTable → Except Err ProtocolNode)
    (nc tc : WikiTable) :
    ∀ (l : List (List WikitableCell × List WikitableCell)) (m : Nat),
    l.length < m →
    (∀ p ∈ l, p.1.length = 1 ∧ p.2.length = 1) →
    parseRowsAux recur m nc tc l = .ok (l.map leafOfRow) := by
  intro l
  induction l with
  | nil =>
    intro m hm _
    obtain ⟨m', rfl⟩ : ∃ m', m = m' + 1 := ⟨m - 1, by omega⟩
    rfl
  | cons p rest ih =>
    intro m hm hall
    obtain ⟨m', rfl⟩ : ∃ m', m = m' + 1 := ⟨m - 1, by omega⟩
    rcases p with ⟨nr, tr⟩
    rcases List.length_eq_one.mp (hall (nr, tr) (List.mem_cons_self _ _)).1 with ⟨n0, hn0⟩
    rcases List.length_eq_one.mp (hall (nr, tr) (List.mem_cons_self _ _)).2 with ⟨t0, ht0⟩
    subst hn0
    subst ht0
    have hrest : parseRowsAux recur m' nc tc rest = .ok (rest.map leafOfRow) :=
      ih m' (by simp only [List.length_cons] at hm; omega)
        (fun q hq => hall q (List.mem_cons_of_mem _ hq))
    simp only [parseRowsAux]
    rw [if_neg (by simp)]
    rw [hrest]
    rfl

/-- C6: on two views of equal height whose rows each hold exactly one cell,
the inference engine returns the flat list of leaf fields in row order, one
per row, of length the shared height, and with no composite nodes. -/
theorem parse_subtable_flat (n : Nat) (nc tc : WikiTable)
    (h1 : nc.height = tc.height)
    (h2 : nc.height = (nc.rows.length : Int))
    (h3 : tc.height = (tc.rows.length : Int))
    (hn : ∀ r ∈ nc.rows, r.length = 1)
    (ht : ∀ r ∈ tc.rows, r.length = 1) :
    parse_subtable (n + 1) nc tc = .ok (.plist ((nc.rows.zip tc.rows).map leafOfRow))
    ∧ (((nc.rows.zip tc.rows).map leafOfRow).length : Int) = nc.height
    ∧ ∀ f ∈ (nc.rows.zip tc.rows).map leafOfRow, ∃ s, f.2 = ProtocolNode.strType s := by
  have hlen : nc.rows.length = tc.rows.length := by
    rw [h2, h3] at h1
    exact_mod_cast h1
  have hzip : ∀ p ∈ nc.rows.zip tc.rows, p.1.length = 1 ∧ p.2.length = 1 := by
    intro p hp
    rcases p with ⟨a, b⟩
    exact ⟨hn a (List.of_mem_zip hp).1, ht b (List.of_mem_zip hp).2⟩
  refine ⟨?_, ?_, ?_⟩
  · simp only [parse_subtable]
    rw [if_neg (by simp [h1])]
    rw [parseRowsAux_flat _ nc tc _ _ (Nat.lt_succ_self _) hzip]
    rfl
  · rw [List.length_map, List.length_zip, hlen, Nat.min_self, h1]
    exact h3.symm
  · intro f hf
    rcases List.mem_map.mp hf with ⟨p, hp, rfl⟩
    rcases p with ⟨pa, pb⟩
    rcases List.length_eq_one.mp (hzip (pa, pb) hp).1 with ⟨n0, hn0⟩
    rcases List.length_eq_one.mp (hzip (pa, pb) hp).2 with ⟨t0, ht0⟩
    subst hn0
    subst ht0
    exact ⟨t0.content, rfl⟩

/-- Witness for `parse_subtable_flat` on one-cell one-row views. -/
theorem parse_subtable_flat_witness :
    parse_subtable 1 c6_name_col c6_type_col =
      .ok (.plist [((['N'] : List Char), ProtocolNode.strType ['T'])]) :=
  (parse_subtable_flat 0 c6_name_col c6_type_col rfl rfl rfl
    (by decide) (by decide)).1

/-- C10: one step of the row walk.  When the two rows hold different cell
counts, the walk raises the symmetry error unless the name row is non-empty
and the trimmed content of its first cell is the no-fields marker, in which
case the pair, plus as many following pairs as the rowspan of that cell, are
dropped
with nothing emitted; when the cell counts agree, no sentinel check happens —
a single-cell row whose content is the marker still emits a leaf field. -/
theorem parseRowsAux_row_step (recur : WikiTable → WikiTable → Except Err ProtocolNode)
    (m : Nat) (nc tc : WikiTable) (nr tr : List WikitableCell)
    (rest : List (List WikitableCell × List WikitableCell)) :
    (nr.length ≠ tr.length → ∀ n0 nrest, nr = n0 :: nrest →
      pyStrip n0.content = noFieldsSentinel →
      parseRowsAux recur (m + 1) nc tc ((nr, tr) :: rest)
        = parseRowsAux recur m nc tc (rest.drop n0.rowspan.toNat))
    ∧ (nr.length ≠ tr.length → ∀ n0 nrest, nr = n0 :: nrest →
      pyStrip n0.content ≠ noFieldsSentinel →
      parseRowsAux recur (m + 1) nc tc ((nr, tr) :: rest) = .error .symmetry)
    ∧ (nr = [] → tr ≠ [] →
      parseRowsAux recur (m + 1) nc tc ((nr, tr) :: rest) = .error .symmetry)
    ∧ (∀ n0 t0, nr = [n0] → tr = [t0] → pyStrip n0.content = noFieldsSentinel →
      parseRowsAux recur (m + 1) nc tc ((nr, tr) :: rest)
        = (parseRowsAux recur m nc tc rest).map
            (fun l => (n0.content, parse_type_content t0.content) :: l)) := by
  refine ⟨?_, ?_, ?_, ?_⟩
  · intro hm n0 nrest hnr hsent
    subst hnr
    simp only [parseRowsAux]
    rw [if_pos hm, if_pos hsent]
  · intro hm n0 nrest hnr hsent
    subst hnr
    simp only [parseRowsAux]
    rw [if_pos hm, if_neg hsent]
  · intro hnr htr
    subst hnr
    have hm : ([] : List WikitableCell).length ≠ tr.length := by
      cases tr with
      | nil => exact absurd rfl htr
      | cons a t => simp
    simp only [parseRowsAux]
    rw [if_pos hm]
  · intro n0 t0 hnr htr _
    subst hnr
    subst htr
    simp only [parseRowsAux]
    rw [if_neg (by simp)]
    cases parseRowsAux recur m nc tc rest <;> rfl

/-- Witness for `parseRowsAux_row_step`: the sentinel skip, the mismatch
error, and the equal-count leaf emission even on sentinel content. -/
theorem parseRowsAux_row_step_witness :
    parseRowsAux (fun _ _ => .error .recursionLimit) 2 ⟨[], 0, 0⟩ ⟨[], 0, 0⟩
        [([⟨noFieldsSentinel, false, 0, 0, 1, 1⟩], []), ([], [])] = .ok []
    ∧ parseRowsAux (fun _ _ => .error .recursionLimit) 2 ⟨[], 0, 0⟩ ⟨[], 0, 0⟩
        [([⟨['A'], false, 0, 0, 1, 1⟩], [])] = .error .symmetry
    ∧ parseRowsAux (fun _ _ => .error .recursionLimit) 2 ⟨[], 0, 0⟩ ⟨[], 0, 0⟩
        [([⟨noFieldsSentinel, false, 0, 0, 1, 1⟩], [⟨['T'], false, 0, 0, 1, 1⟩])]
      = .ok [(noFieldsSentinel, ProtocolNode.strType ['T'])] :=
  ⟨((parseRowsAux_row_step (fun _ _ => .error .recursionLimit) 1 ⟨[], 0, 0⟩ ⟨[], 0, 0⟩
      [⟨noFieldsSentinel, false, 0, 0, 1, 1⟩] [] [([], [])]).1
      (by decide) _ _ rfl (by decide)).trans rfl,
   (parseRowsAux_row_step (fun _ _ => .error .recursionLimit) 1 ⟨[], 0, 0⟩ ⟨[], 0, 0⟩
      [⟨['A'], false, 0, 0, 1, 1⟩] [] []).2.1
      (by decide) _ _ rfl (by decide),
   ((parseRowsAux_row_step (fun _ _ => .error .recursionLimit) 1 ⟨[], 0, 0⟩ ⟨[], 0, 0⟩
      [⟨noFieldsSentinel, false, 0, 0, 1, 1⟩] [⟨['T'], false, 0, 0, 1, 1⟩] []).2.2.2
      _ _ rfl rfl (by decide)).trans rfl⟩

/-- C9: routing of errors in the packet assembler.  Errors of the steps
before the inference call propagate unchanged; when the inference engine
raises the symmetry error the assembler logs the packet name and returns no
packet for this one entry; any other error from the inference call
propagates as fatal. -/
theorem modern_packet_parse_symmetry (fuel : Nat) (w : Wiki) :
    (∀ e, packet_pre w = .error e → modern_packet_parse fuel w = .error e)
    ∧ (∀ pre pid ncl tcl, packet_pre w = .ok (pre, pid, ncl, tcl) →
        parse_subtable fuel ncl tcl = .error .symmetry →
        modern_packet_parse fuel w = .ok ([symmetryMsg w.name], none))
    ∧ (∀ pre pid ncl tcl e, packet_pre w = .ok (pre, pid, ncl, tcl) →
        parse_subtable fuel ncl tcl = .error e → e ≠ .symmetry →
        modern_packet_parse fuel w = .error e) := by
  refine ⟨?_, ?_, ?_⟩
  · intro e he
    simp only [modern_packet_parse, he]
  · intro pre pid ncl tcl hok hsym
    simp only [modern_packet_parse, hok, hsym]
  · intro pre pid ncl tcl e hok herr hne
    cases e with
    | symmetry => exact absurd rfl hne
    | valueError => simp only [modern_packet_parse, hok, herr]
    | assertionError => simp only [modern_packet_parse, hok, herr]
    | indexError => simp only [modern_packet_parse, hok, herr]
    | attributeError => simp only [modern_packet_parse, hok, herr]
    | keyError => simp only [modern_packet_parse, hok, herr]
    | exception => simp only [modern_packet_parse, hok, herr]
    | recursionLimit => simp only [modern_packet_parse, hok, herr]

/-- Witness for `modern_packet_parse_symmetry`: on `c9_wiki` the pre-steps
succeed, the inference engine trips the symmetry check, and the assembler
returns the logged packet name and no packet. -/
theorem modern_packet_parse_symmetry_witness :
    modern_packet_parse 3 c9_wiki =
      .ok ([("Symmetry error in packet Test Packet. Intervention required!".data)],
        none) :=
  (modern_packet_parse_symmetry 3 c9_wiki).2.1 _ _ _ _ rfl rfl

/-- Case split for a successful Python-style list access. -/
theorem pyGet_eq_cases {α} (l : List α) (i : Int) (a : α) (h : pyGet l i = some a) :
    (0 ≤ i ∧ l.get? i.toNat = some a)
    ∨ (i < 0 ∧ 0 ≤ i + l.length ∧ l.get? (i + l.length).toNat = some a) := by
  unfold pyGet at h
  split at h
  · exact Or.inl ⟨by assumption, h⟩
  · split at h
    · exact Or.inr ⟨by omega, by assumption, h⟩
    · exact Option.noConfusion h

/-- A successful index lookup determines the default access. -/
theorem getD_of_get? {α} (l : List α) (j : Nat) (d : α) (r : α)
    (h : l.get? j = some r) : l.getD j d = r := by
  rw [List.getD_eq_get?, h]
  rfl

/-- The first filtered element is `c` when `c` passes and every passing
element equals `c`. -/
theorem filter_head_unique (r : List WikitableCell) (c : WikitableCell) (x : Int)
    (hcx : c.x = x) (hcr : c ∈ r) (huniq : ∀ d ∈ r, d.x = x → d = c) :
    (r.filter (fun d => d.x == x)).head? = some c := by
  induction r with
  | nil => cases hcr
  | cons a t ih =>
    by_cases ha : a.x = x
    · have hac : a = c := huniq a (List.mem_cons_self _ _) ha
      subst hac
      rw [List.filter_cons_of_pos (by simp [ha])]
      rfl
    · have hct : c ∈ t := by
        rcases List.mem_cons.mp hcr with hh | hh
        · exact absurd (hh ▸ hcx) ha
        · exact hh
      rw [List.filter_cons_of_neg (by simp [ha])]
      exact ih hct (fun d hd hdx => huniq d (List.mem_cons_of_mem _ hd) hdx)

/-- C3 counterexample: in the grid parsed from a table whose first cell spans
a 2 by 2 rectangle, only the origin position resolves to that cell through
the point lookup; the other three positions of its rectangle resolve to no
cell at all, so fewer than rowspan times colspan positions resolve to it. -/
theorem c3_counterexample :
    WikiTable.From_txt ("\x7b|\n| rowspan=\"2\" colspan=\"2\"| A\n| B\n|-\n| C\n|\x7d".data)
      = .ok (⟨[[⟨['A'], false, 0, 0, 2, 2⟩, ⟨['B'], false, 2, 0, 1, 1⟩],
               [⟨['C'], false, 2, 1, 1, 1⟩]], 2, 2⟩, none)
    ∧ (⟨[[⟨['A'], false, 0, 0, 2, 2⟩, ⟨['B'], false, 2, 0, 1, 1⟩],
         [⟨['C'], false, 2, 1, 1, 1⟩]], 2, 2⟩ : WikiTable).get 0 0
        = .ok (some ⟨['A'], false, 0, 0, 2, 2⟩)
    ∧ (⟨[[⟨['A'], false, 0, 0, 2, 2⟩, ⟨['B'], false, 2, 0, 1, 1⟩],
         [⟨['C'], false, 2, 1, 1, 1⟩]], 2, 2⟩ : WikiTable).get 1 0 = .ok none
    ∧ (⟨[[⟨['A'], false, 0, 0, 2, 2⟩, ⟨['B'], false, 2, 0, 1, 1⟩],
         [⟨['C'], false, 2, 1, 1, 1⟩]], 2, 2⟩ : WikiTable).get 0 1 = .ok none
    ∧ (⟨[[⟨['A'], false, 0, 0, 2, 2⟩, ⟨['B'], false, 2, 0, 1, 1⟩],
         [⟨['C'], false, 2, 1, 1, 1⟩]], 2, 2⟩ : WikiTable).get 1 1 = .ok none :=
  ⟨rfl, rfl, rfl, rfl, rfl⟩

/-- C3 amended: in a grid whose cells sit in the row their y coordinate
names, have positive spans, and occupy pairwise disjoint rectangles, the
point lookup resolves a cell exactly at its origin: the origin position
returns the cell, and every other position of its rectangle returns no cell
(so exactly one position resolves to it, and no other cell claims its
rectangle). -/
theorem get_resolves_at_origin_only (t : WikiTable) (c : WikitableCell)
    (r : List WikitableCell)
    (hspan : ∀ d ∈ t.rows.join, 1 ≤ d.rowspan ∧ 1 ≤ d.colspan)
    (hplace : ∀ iy, iy < t.rows.length → ∀ d ∈ t.rows.getD iy [], d.y = (iy : Int))
    (hdisj : ∀ d1 ∈ t.rows.join, ∀ d2 ∈ t.rows.join, d1 ≠ d2 → rectDisjoint d1 d2)
    (hrows : c.y + c.rowspan ≤ (t.rows.length : Int))
    (hr : pyGet t.rows c.y = some r) (hcr : c ∈ r) :
    t.get c.x c.y = .ok (some c)
    ∧ ∀ px py : Int, inRect c px py → ¬(px = c.x ∧ py = c.y) →
        t.get px py = .ok none := by
  rcases pyGet_eq_cases t.rows c.y r hr with ⟨hcy, hget⟩ | ⟨hneg, hpos, hget⟩
  case inr =>
    exfalso
    rcases List.get?_eq_some.mp hget with ⟨hjlt, _⟩
    have hgd := getD_of_get? t.rows _ [] r hget
    have hy := hplace _ hjlt c (hgd ▸ hcr)
    rw [Int.toNat_of_nonneg hpos] at hy
    omega
  rcases List.get?_eq_some.mp hget with ⟨hcyt, _⟩
  have hgd := getD_of_get? t.rows _ [] r hget
  have hrmem : r ∈ t.rows := List.get?_mem hget
  have hmemjoin : ∀ d ∈ r, d ∈ t.rows.join :=
    fun d hd => List.mem_join.mpr ⟨r, hrmem, hd⟩
  have hyr : ∀ d ∈ r, d.y = c.y := by
    intro d hd
    have hdy := hplace _ hcyt d (hgd ▸ hd)
    rw [Int.toNat_of_nonneg hcy] at hdy
    exact hdy
  have hcspan := hspan c (hmemjoin c hcr)
  have huniq : ∀ d ∈ r, d.x = c.x → d = c := by
    intro d hd hdx
    by_contra hne
    have hdisj' := hdisj d (hmemjoin d hd) c (hmemjoin c hcr) hne
    have hdspan := hspan d (hmemjoin d hd)
    have hdy := hyr d hd
    unfold rectDisjoint at hdisj'
    omega
  constructor
  · simp only [WikiTable.get, hr]
    rw [filter_head_unique r c c.x rfl hcr huniq]
  · intro px py hrect hnorig
    unfold inRect at hrect
    have hpy : 0 ≤ py := by omega
    have hpyl : py.toNat < t.rows.length := by omega
    obtain ⟨row', hrow'⟩ : ∃ row', t.rows.get? py.toNat = some row' :=
      ⟨_, List.get?_eq_get hpyl⟩
    have hpg : pyGet t.rows py = some row' := by
      unfold pyGet
      rw [if_pos hpy]
      exact hrow'
    have hgd' := getD_of_get? t.rows _ [] row' hrow'
    have hemp : row'.filter (fun d => d.x == px) = [] := by
      rw [List.filter_eq_nil_iff]
      intro d hd
      simp only [beq_iff_eq]
      intro hdx
      have hdy : d.y = py := by
        have := hplace _ hpyl d (hgd' ▸ hd)
        rw [Int.toNat_of_nonneg hpy] at this
        exact this
      have hdjoin : d ∈ t.rows.join :=
        List.mem_join.mpr ⟨row', List.get?_mem hrow', hd⟩
      have hdspan := hspan d hdjoin
      by_cases hdc : d = c
      · subst hdc
        exact hnorig ⟨hdx.symm, hdy.symm⟩
      · have hdisj' := hdisj d hdjoin c (hmemjoin c hcr) hdc
        unfold rectDisjoint at hdisj'
        omega
    simp only [WikiTable.get, hpg, hemp]
    rfl

/-- Witness for `get_resolves_at_origin_only` on `c3_table`: the 2 by 2 cell
at the origin resolves only there; the rectangle position (1, 1) resolves to
no cell. -/
theorem get_resolves_at_origin_only_witness :
    c3_table.get 0 0 = .ok (some ⟨['A'], false, 0, 0, 2, 2⟩)
    ∧ c3_table.get 1 1 = .ok none :=
  ⟨(get_resolves_at_origin_only c3_table ⟨['A'], false, 0, 0, 2, 2⟩
      [⟨['A'], false, 0, 0, 2, 2⟩] (by decide)
      (by decide) (by decide) (by decide) rfl (by decide)).1,
   (get_resolves_at_origin_only c3_table ⟨['A'], false, 0, 0, 2, 2⟩
      [⟨['A'], false, 0, 0, 2, 2⟩] (by decide)
      (by decide) (by decide) (by decide) rfl (by decide)).2 1 1
      (by decide) (by decide)⟩
